import Mathlib

/-
Verification of the GreenVision ingestion-and-retention pipeline
(src/evathon/backend/serial_reader.py).

Shallow embedding conventions:
  - Python strings are modeled as List Char; str.strip, str.split(","),
    str.upper are modeled over the ASCII fragment.
  - Python floats are modeled exactly: a parsed value is a PyFloat, either
    finite (an exact rational, ignoring binary rounding of doubles) or one
    of the non-finite values inf, -inf, nan.  float(str) is modeled by
    floatTok? / pyFloat? following CPython's accepted grammar (optional
    sign, "inf"/"infinity"/"nan" case-insensitive, or a decimal literal
    with optional underscores between digits and optional exponent).
  - The CSV file is modeled as Option (List Char): none when the file is
    absent, some content otherwise.  A write failure caught by the code is
    modeled by a Boolean writeOk oracle.  Python's float-to-string
    formatting is abstracted as a parameter fmt : PyFloat -> List Char
    (properties are stated modulo float formatting).
  - The background listener thread is modeled as a transition function on
    an explicit state, driven by an environment oracle per tick.
  - Interleaving of the producer thread with concurrent snapshot readers
    is modeled by traces of atomic actions at Python-statement granularity:
    DATA_BUFFER.append(...) and DATA_BUFFER.pop(0) are separate atomic
    actions (CPython's GIL makes each single list operation atomic), and
    list(DATA_BUFFER) is one atomic copy.
-/

/-! ## Python string primitives (ASCII fragment) -/

/-- Whitespace characters stripped by Python's str.strip (ASCII fragment). -/
def isPySpace (c : Char) : Bool :=
  c = ' ' || c = '\t' || c = '\n' || c = '\r' || c = '\x0b' || c = '\x0c'

/-- Left part of str.strip: drop leading whitespace. -/
def lstripWs (s : List Char) : List Char := s.dropWhile isPySpace

/-- Right part of str.strip: drop trailing whitespace. -/
def rstripWs (s : List Char) : List Char := (s.reverse.dropWhile isPySpace).reverse

/-- Python str.strip(): drop leading and trailing whitespace. -/
def pyStrip (s : List Char) : List Char := rstripWs (lstripWs s)

/-- Python str.upper() (ASCII fragment). -/
def pyUpper (s : List Char) : List Char := s.map Char.toUpper

/-- Python str.split(sep) for a one-character separator: splitting the empty
string yields one empty field, and every separator occurrence starts a new
field. -/
def splitSep (sep : Char) : List Char → List (List Char)
  | [] => [[]]
  | c :: rest =>
    if c = sep then [] :: splitSep sep rest
    else
      match splitSep sep rest with
      | [] => [[c]]
      | f :: fs => (c :: f) :: fs

/-! ## Python float(str) -/

/-- Result of a successful Python float(str) conversion: a finite rational
(exact, ignoring double rounding) or a non-finite value. -/
inductive PyFloat where
  | finite (val : ℚ)
  | inf
  | neginf
  | nan
deriving DecidableEq, Repr

/-- Numeric value of an ASCII digit. -/
def digitVal (c : Char) : ℕ := c.toNat - 48

/-- Consume a maximal run of decimal digits, allowing a single underscore
between two digits (PEP 515).  Returns the accumulated value, the number of
digits consumed, and the rest of the input. -/
def takeDigits : ℕ → ℕ → List Char → ℕ × ℕ × List Char
  | acc, n, [] => (acc, n, [])
  | acc, n, '_' :: d :: r =>
    if 0 < n ∧ d.isDigit then takeDigits (10 * acc + digitVal d) (n + 1) r
    else (acc, n, '_' :: d :: r)
  | acc, n, c :: r =>
    if c.isDigit then takeDigits (10 * acc + digitVal c) (n + 1) r else (acc, n, c :: r)

/-- Syntactic form recognized by Python float(str): a signed infinity, a NaN,
or a decimal number with integer part ip, fractional part fp over nf digits,
and a signed decimal exponent ev. -/
inductive FloatTok where
  | inf (neg : Bool)
  | nan
  | num (neg : Bool) (ip fp nf : ℕ) (eneg : Bool) (ev : ℕ)
deriving DecidableEq, Repr

/-- Strip one optional leading sign; true means negative. -/
def splitSign : List Char → Bool × List Char
  | '+' :: r => (false, r)
  | '-' :: r => (true, r)
  | s => (false, s)

/-- Syntactic pass of Python float(str): strips whitespace, accepts an
optional sign followed by "inf", "infinity" or "nan" (case-insensitive) or a
decimal literal with optional fraction and exponent; anything else (including
the empty string) is a ValueError, modeled as none. -/
def floatTok? (s0 : List Char) : Option FloatTok :=
  let s := pyStrip s0
  let p := splitSign s
  let low := p.2.map Char.toLower
  if low = "inf".toList ∨ low = "infinity".toList then some (.inf p.1)
  else if low = "nan".toList then some .nan
  else
    let t1 := takeDigits 0 0 p.2
    let t2 :=
      match t1.2.2 with
      | '.' :: rf => takeDigits 0 0 rf
      | _ => (0, 0, t1.2.2)
    if t1.2.1 + t2.2.1 = 0 then none
    else
      match t2.2.2 with
      | [] => some (.num p.1 t1.1 t2.1 t2.2.1 false 0)
      | e :: r3 =>
        if e = 'e' ∨ e = 'E' then
          let pe := splitSign r3
          let t3 := takeDigits 0 0 pe.2
          if t3.2.1 = 0 ∨ t3.2.2 ≠ [] then none
          else some (.num p.1 t1.1 t2.1 t2.2.1 pe.1 t3.1)
        else none

/-- Numeric interpretation of a parsed float token. -/
def FloatTok.toPyFloat : FloatTok → PyFloat
  | .inf neg => if neg then .neginf else .inf
  | .nan => .nan
  | .num neg ip fp nf eneg ev =>
    let mant : ℚ := ((ip : ℚ) * 10 ^ nf + (fp : ℚ)) / 10 ^ nf
    let q := mant * (if eneg then ((10 : ℚ) ^ ev)⁻¹ else (10 : ℚ) ^ ev)
    .finite (if neg then -q else q)

/-- Python float(str): either a PyFloat value or a ValueError (none). -/
def pyFloat? (s : List Char) : Option PyFloat := (floatTok? s).map FloatTok.toPyFloat

/-! ## Reading parser (parse_serial_line) -/

/-- A reading as produced by the parser or the mock generator, before the
ingestion timestamp is attached (a Python dict with these four keys). -/
structure Reading where
  rri : PyFloat
  bsi : PyFloat
  road_condition : List Char
  battery_status : List Char
deriving DecidableEq, Repr

/-- Embedding of parse_serial_line: strip the line; reject blank input;
split on ","; require exactly 4 fields; convert the first two stripped
fields with float(); upper-case the stripped last two fields; any
ValueError is caught and yields None. -/
def parse_serial_line (line : List Char) : Option Reading :=
  let l := pyStrip line
  if l = [] then none
  else
    let parts := splitSep ',' l
    if parts.length ≠ 4 then none
    else
      match pyFloat? (pyStrip (parts.getD 0 [])), pyFloat? (pyStrip (parts.getD 1 [])) with
      | some a, some b =>
        some { rri := a, bsi := b,
               road_condition := pyUpper (pyStrip (parts.getD 2 [])),
               battery_status := pyUpper (pyStrip (parts.getD 3 [])) }
      | _, _ => none

/-! ## Mock generator (generate_mock_data) -/

/-- Round-half-to-even on rationals, as Python's round() ties rule. -/
def roundHalfEven (q : ℚ) : ℤ :=
  if q - ⌊q⌋ < 1 / 2 then ⌊q⌋
  else if 1 / 2 < q - ⌊q⌋ then ⌊q⌋ + 1
  else if Even ⌊q⌋ then ⌊q⌋ else ⌊q⌋ + 1

/-- Python round(x, n) modeled on exact rationals. -/
def pyRound (q : ℚ) (n : ℕ) : ℚ := (roundHalfEven (q * 10 ^ n) : ℚ) / 10 ^ n

/-- CPython random.uniform(a, b) = a + (b - a) * random(), with random()
drawing u uniformly from [0, 1). -/
def uniformQ (a b u : ℚ) : ℚ := a + (b - a) * u

/-- CPython random.choices(["SMOOTH","MODERATE","ROUGH"], weights=[.5,.35,.15]):
bisect over cumulative weights 0.5, 0.85, 1.0 applied to a draw u in [0,1). -/
def weightedRoad (u : ℚ) : List Char :=
  if u < 1 / 2 then "SMOOTH".toList
  else if u < 17 / 20 then "MODERATE".toList
  else "ROUGH".toList

/-- The sequence passed to random.choice for the battery status. -/
def batteryChoices : List (List Char) :=
  ["NORMAL".toList, "NORMAL".toList, "ELEVATED".toList, "CRITICAL".toList]

/-- Embedding of generate_mock_data.  The random number generator state is
made explicit: u1, u2, u3 are the uniform draws in [0, 1) consumed by the two
random.uniform calls and by random.choices, and i is the uniform index in
0..3 consumed by random.choice. -/
def generate_mock_data (u1 u2 u3 : ℚ) (i : Fin 4) : Reading :=
  { rri := .finite (pyRound (uniformQ (1 / 5) (4 / 5) u1) 2),
    bsi := .finite (pyRound (uniformQ 8 25 u2) 1),
    road_condition := weightedRoad u3,
    battery_status := batteryChoices.get (Fin.cast (by rfl) i) }

/-! ## Durable log writer and retention buffer -/

/-- The fixed CSV header row written on first startup. -/
def headerLine : List Char := "timestamp,rri,bsi,road_condition,battery_status".toList

/-- Embedding of ensure_data_dir on the log file: if the file is absent,
create it holding exactly the header line; otherwise leave it unchanged. -/
def ensure_data_dir : Option (List Char) → Option (List Char)
  | none => some (headerLine ++ ['\n'])
  | some c => some c

/-- A reading stamped with its ingestion timestamp (the dict stored in
DATA_BUFFER and rendered into the CSV). -/
structure StampedReading where
  timestamp : List Char
  rri : PyFloat
  bsi : PyFloat
  road_condition : List Char
  battery_status : List Char
deriving DecidableEq, Repr

/-- Attach the ingestion timestamp to a parsed or generated reading. -/
def stampReading (ts : List Char) (d : Reading) : StampedReading :=
  { timestamp := ts, rri := d.rri, bsi := d.bsi,
    road_condition := d.road_condition, battery_status := d.battery_status }

/-- The comma-separated CSV row for one stamped reading, without the
trailing newline.  fmt abstracts Python's float formatting. -/
def rowBody (fmt : PyFloat → List Char) (r : StampedReading) : List Char :=
  r.timestamp ++ ',' :: (fmt r.rri ++ ',' :: (fmt r.bsi ++ ',' ::
    (r.road_condition ++ ',' :: r.battery_status)))

/-- The full line written by one append (f-string plus newline). -/
def renderRow (fmt : PyFloat → List Char) (r : StampedReading) : List Char :=
  rowBody fmt r ++ ['\n']

/-- Embedding of append_to_csv: open in append mode (creating an empty file
if absent) and write one line; an IOError/OSError is caught, leaving the
file as it was.  writeOk is the oracle for whether the write succeeds. -/
def append_to_csv (fmt : PyFloat → List Char) (writeOk : Bool)
    (csv : Option (List Char)) (r : StampedReading) : Option (List Char) :=
  if writeOk then some (csv.getD [] ++ renderRow fmt r) else csv

/-- BUFFER_SIZE from the source configuration block. -/
def BUFFER_SIZE : ℕ := 100

/-- The buffer effect of one push: DATA_BUFFER.append(entry), then
if len(DATA_BUFFER) > BUFFER_SIZE: DATA_BUFFER.pop(0). -/
def pushBuffer (buf : List StampedReading) (r : StampedReading) : List StampedReading :=
  let b := buf ++ [r]
  if BUFFER_SIZE < b.length then b.drop 1 else b

/-- The process-wide mutable state touched by process_and_store: the CSV
file and the in-memory DATA_BUFFER. -/
structure SysState where
  csv : Option (List Char)
  buffer : List StampedReading
deriving DecidableEq, Repr

/-- Embedding of process_and_store: stamp the reading with the ingestion
timestamp ts, attempt the CSV append first (its failure is absorbed by
append_to_csv), then push into the buffer. -/
def process_and_store (fmt : PyFloat → List Char) (writeOk : Bool)
    (ts : List Char) (st : SysState) (d : Reading) : SysState :=
  let r := stampReading ts d
  { csv := append_to_csv fmt writeOk st.csv r,
    buffer := pushBuffer st.buffer r }

/-- A sequence of process_and_store calls; each event carries the write
oracle, the ingestion timestamp and the reading. -/
def runPipeline (fmt : PyFloat → List Char) (st : SysState)
    (evs : List (Bool × List Char × Reading)) : SysState :=
  evs.foldl (fun s e => process_and_store fmt e.1 e.2.1 s e.2.2) st

/-! ## Acquisition loop (serial_listener) and query surface -/

/-- What the hardware side of one loop iteration does, as seen by the code:
a line becomes available and is read, no data is waiting, the serial layer
raises SerialException, or some other exception is raised. -/
inductive HwEvent where
  | dataLine (raw : List Char)
  | noData
  | serialFail
  | otherFail
deriving DecidableEq, Repr

/-- Environment oracle for one iteration of the while-loop: the hardware
event, the generator output consumed when in mock mode, the ingestion
timestamp, and the CSV write outcome. -/
structure TickEnv where
  hw : HwEvent
  mockReading : Reading
  ts : List Char
  writeOk : Bool

/-- Listener thread state: whether ser is a live open handle, the MOCK_MODE
flag, and the shared CSV/buffer state. -/
structure ListenerState where
  serOpen : Bool
  mock : Bool
  sys : SysState

/-- One iteration of the while-loop in serial_listener: with an open serial
handle, read and parse an available line (a failed parse is dropped), treat
SerialException by closing the handle and setting MOCK_MODE = True, and
swallow any other exception; without an open handle, generate mock data and
store it. -/
def listenerTick (fmt : PyFloat → List Char) (s : ListenerState) (e : TickEnv) :
    ListenerState :=
  if s.serOpen then
    match e.hw with
    | .dataLine raw =>
      match parse_serial_line raw with
      | some d => { s with sys := process_and_store fmt e.writeOk e.ts s.sys d }
      | none => s
    | .noData => s
    | .serialFail => { s with serOpen := false, mock := true }
    | .otherFail => s
  else
    { s with sys := process_and_store fmt e.writeOk e.ts s.sys e.mockReading }

/-- Run the loop for a finite sequence of iterations. -/
def runListener (fmt : PyFloat → List Char) (s : ListenerState)
    (evs : List TickEnv) : ListenerState :=
  evs.foldl (listenerTick fmt) s

/-- Outcome of the startup section of serial_listener (hardware probing). -/
inductive StartOutcome where
  | opened
  | openFailed
  | noDevice
  | noSerialLib
deriving DecidableEq, Repr

/-- Initial (serOpen, MOCK_MODE) pair set by the startup section: only a
successful serial.Serial open yields hardware mode. -/
def listenerInit : StartOutcome → Bool × Bool
  | .opened => (true, false)
  | .openFailed => (false, true)
  | .noDevice => (false, true)
  | .noSerialLib => (false, true)

/-- Response shape of GET /api/status. -/
structure StatusResp where
  status : List Char
  mock_mode : Bool
  buffer_size : ℕ
deriving DecidableEq, Repr

/-- Embedding of the api_status route. -/
def api_status (s : ListenerState) : StatusResp :=
  { status := "ok".toList, mock_mode := s.mock, buffer_size := s.sys.buffer.length }

/-- Embedding of the api_data route: list(DATA_BUFFER) is a fresh copy of
the buffer, paired with the mode flag. -/
def api_data (s : ListenerState) : List StampedReading × Bool :=
  (s.sys.buffer, s.mock)

/-! ## Interleaving model for the shared buffer -/

/-- Atomic actions on DATA_BUFFER at Python-statement granularity:
DATA_BUFFER.append(entry), the conditional DATA_BUFFER.pop(0), and the
list(DATA_BUFFER) copy taken by a concurrent api_data request. -/
inductive BufAction where
  | append (r : StampedReading)
  | evict
  | snap
deriving DecidableEq, Repr

/-- Trace state: the full sequence of readings pushed so far (history) and
the current DATA_BUFFER contents. -/
structure TraceState where
  history : List StampedReading
  buffer : List StampedReading
deriving DecidableEq, Repr

/-- Effect of one atomic action. -/
def stepA (st : TraceState) : BufAction → TraceState
  | .append r => { history := st.history ++ [r], buffer := st.buffer ++ [r] }
  | .evict =>
    if BUFFER_SIZE < st.buffer.length then { st with buffer := st.buffer.drop 1 } else st
  | .snap => st

/-- Run a trace of atomic actions. -/
def execTrace (st : TraceState) (tr : List BufAction) : TraceState :=
  tr.foldl stepA st

/-- The observations made by the concurrent readers: at each snap action,
the (history so far, buffer copy) pair returned to that reader. -/
def obsOf (st : TraceState) : List BufAction → List (List StampedReading × List StampedReading)
  | [] => []
  | .append r :: t => obsOf (stepA st (.append r)) t
  | .evict :: t => obsOf (stepA st .evict) t
  | .snap :: t => (st.history, st.buffer) :: obsOf st t

/-- Well-formed interleavings: the single producer thread alternates
append and evict (each process_and_store call performs append immediately
followed by the conditional pop), while snapshots from reader threads may
fall anywhere, including between an append and its evict.  The Boolean
phase is true exactly between an append and its evict. -/
def wfTrace : Bool → List BufAction → Bool
  | _, [] => true
  | b, .snap :: t => wfTrace b t
  | false, .append _ :: t => wfTrace true t
  | true, .evict :: t => wfTrace false t
  | _, _ => false

/-- The action sequence of n complete pushes by the producer. -/
def pushActs : List StampedReading → List BufAction
  | [] => []
  | r :: rs => .append r :: .evict :: pushActs rs

/-- Concatenated text of the rendered rows, in append order. -/
def rowsText (fmt : PyFloat → List Char) : List StampedReading → List Char
  | [] => []
  | r :: rs => renderRow fmt r ++ rowsText fmt rs

/-- A sample reading with non-finite numeric fields (keeps concrete
computations free of rational arithmetic). -/
def sampleReading : Reading :=
  { rri := .nan, bsi := .nan, road_condition := "A".toList, battery_status := "B".toList }

/-- A sample stamped reading for concrete traces. -/
def sampleStamped : StampedReading :=
  { timestamp := "T".toList, rri := .nan, bsi := .nan,
    road_condition := "A".toList, battery_status := "B".toList }

/-! ## Lemmas about splitSep and pyStrip -/

theorem splitSep_ne_nil (sep : Char) (l : List Char) : splitSep sep l ≠ [] := by
  cases l with
  | nil => simp [splitSep]
  | cons c rest =>
    simp only [splitSep]
    split
    · simp
    · match h : splitSep sep rest with
      | [] => simp
      | f :: fs => simp

theorem splitSep_eq_cons (sep : Char) (l : List Char) :
    ∃ f fs, splitSep sep l = f :: fs := by
  match h : splitSep sep l with
  | [] => exact absurd h (splitSep_ne_nil sep l)
  | f :: fs => exact ⟨f, fs, rfl⟩

theorem splitSep_cons_ne (sep c : Char) (l : List Char) (hc : c ≠ sep)
    (f : List Char) (fs : List (List Char)) (h : splitSep sep l = f :: fs) :
    splitSep sep (c :: l) = (c :: f) :: fs := by
  simp only [splitSep, if_neg hc, h]

theorem splitSep_concat (sep : Char) (l : List Char) :
    ∃ i la, splitSep sep l = i ++ [la] := by
  rcases (splitSep sep l).eq_nil_or_concat with h | ⟨i, la, h⟩
  · exact absurd h (splitSep_ne_nil sep l)
  · exact ⟨i, la, by simpa using h⟩

theorem splitSep_cons_eq (sep c : Char) (l : List Char) (hc : c = sep) :
    splitSep sep (c :: l) = [] :: splitSep sep l := by
  simp only [splitSep]
  rw [if_pos hc]

theorem splitSep_snoc (sep c : Char) (hc : c ≠ sep) :
    ∀ (l : List Char) (i : List (List Char)) (la : List Char),
      splitSep sep l = i ++ [la] →
      splitSep sep (l ++ [c]) = i ++ [la ++ [c]] := by
  intro l
  induction l with
  | nil =>
    intro i la h
    simp only [splitSep] at h
    cases i with
    | nil =>
      simp only [List.nil_append, List.cons.injEq, and_true] at h
      subst h
      simp [splitSep, if_neg hc]
    | cons i0 i' =>
      rcases i' with _ | ⟨_, _⟩ <;> simp at h
  | cons a rest ih =>
    intro i la h
    by_cases ha : a = sep
    · rw [splitSep_cons_eq sep a rest ha] at h
      cases i with
      | nil =>
        simp only [List.nil_append, List.cons.injEq] at h
        exact absurd h.2 (splitSep_ne_nil sep rest)
      | cons i0 i' =>
        simp only [List.cons_append, List.cons.injEq] at h
        have step := ih i' la h.2
        rw [List.cons_append, splitSep_cons_eq sep a (rest ++ [c]) ha, step, ← h.1]
        rfl
    · obtain ⟨f, fs, hf⟩ := splitSep_eq_cons sep rest
      rw [splitSep_cons_ne sep a rest ha f fs hf] at h
      rw [List.cons_append]
      cases i with
      | nil =>
        simp only [List.nil_append, List.cons.injEq] at h
        have hrest : splitSep sep rest = [] ++ [f] := by rw [hf, h.2]; rfl
        have step := ih [] f hrest
        simp only [List.nil_append] at step
        rw [splitSep_cons_ne sep a (rest ++ [c]) ha (f ++ [c]) [] step, ← h.1]
        simp
      | cons i0 i' =>
        simp only [List.cons_append, List.cons.injEq] at h
        have hrest : splitSep sep rest = (f :: i') ++ [la] := by
          rw [hf, h.2]; exact (List.cons_append _ _ _).symm
        have step := ih (f :: i') la hrest
        rw [splitSep_cons_ne sep a (rest ++ [c]) ha f (i' ++ [la ++ [c]])
          (step.trans (List.cons_append _ _ _)), ← h.1]
        rfl

theorem splitSep_append_cons (sep : Char) (y : List Char) (f : List Char)
    (fs : List (List Char)) (hy : splitSep sep y = f :: fs) :
    ∀ (x : List Char), (∀ a ∈ x, a ≠ sep) →
      splitSep sep (x ++ y) = (x ++ f) :: fs := by
  intro x
  induction x with
  | nil => intro _; simpa using hy
  | cons a x' ih =>
    intro hx
    have ha : a ≠ sep := hx a (by simp)
    have h' := ih (fun b hb => hx b (by simp [hb]))
    rw [List.cons_append]
    rw [splitSep_cons_ne sep a (x' ++ y) ha _ _ h']
    simp

theorem splitSep_no_sep (sep : Char) (x : List Char) (hx : ∀ a ∈ x, a ≠ sep) :
    splitSep sep x = [x] := by
  have h := splitSep_append_cons sep [] [] [] rfl x hx
  simpa using h

/-- Dropping a leading whitespace character does not change the stripped
string. -/
theorem pyStrip_cons_ws (c : Char) (x : List Char) (hc : isPySpace c = true) :
    pyStrip (c :: x) = pyStrip x := by
  simp [pyStrip, lstripWs, List.dropWhile_cons, hc]

theorem rstripWs_snoc_ws (c : Char) (x : List Char) (hc : isPySpace c = true) :
    rstripWs (x ++ [c]) = rstripWs x := by
  simp [rstripWs, List.reverse_append, List.dropWhile_cons, hc]

theorem rstripWs_snoc_not_ws (c : Char) (x : List Char) (hc : isPySpace c = false) :
    rstripWs (x ++ [c]) = x ++ [c] := by
  simp [rstripWs, List.reverse_append, List.dropWhile_cons, hc]

/-- Dropping a trailing whitespace character does not change the stripped
string. -/
theorem pyStrip_snoc_ws (c : Char) (x : List Char) (hc : isPySpace c = true) :
    pyStrip (x ++ [c]) = pyStrip x := by
  unfold pyStrip
  by_cases hx : lstripWs x = []
  · have h1 : lstripWs (x ++ [c]) = [] := by
      unfold lstripWs at hx ⊢
      rw [List.dropWhile_eq_nil_iff] at hx ⊢
      intro b hb
      rcases List.mem_append.mp hb with h | h
      · exact hx b h
      · simp only [List.mem_singleton] at h
        subst h
        exact hc
    rw [h1, hx]
  · have h1 : lstripWs (x ++ [c]) = lstripWs x ++ [c] := by
      unfold lstripWs at hx ⊢
      induction x with
      | nil => simp at hx
      | cons a x' ihx =>
        by_cases ha : isPySpace a
        · simp only [List.dropWhile_cons, ha, if_true, List.cons_append] at hx ⊢
          exact ihx hx
        · simp only [List.dropWhile_cons, ha, if_false, List.cons_append]
          simp [Bool.not_eq_true] at ha
          simp [ha]
    rw [h1, rstripWs_snoc_ws c _ hc]

theorem isPySpace_ne_comma (c : Char) (hc : isPySpace c = true) : c ≠ ',' := by
  intro h
  subst h
  simp [isPySpace] at hc

theorem isPySpace_ne_nl_aux : isPySpace ',' = false := by decide

/-- Left-stripping the line does not change the stripped fields of the
comma-split. -/
theorem splitSep_lstrip (l : List Char) :
    (splitSep ',' (lstripWs l)).map pyStrip = (splitSep ',' l).map pyStrip := by
  induction l with
  | nil => rfl
  | cons c rest ih =>
    by_cases hc : isPySpace c
    · have h1 : lstripWs (c :: rest) = lstripWs rest := by
        simp [lstripWs, List.dropWhile_cons, hc]
      rw [h1, ih]
      obtain ⟨f, fs, hf⟩ := splitSep_eq_cons ',' rest
      rw [splitSep_cons_ne ',' c rest (isPySpace_ne_comma c hc) f fs hf, hf]
      simp [pyStrip_cons_ws c f hc]
    · have h1 : lstripWs (c :: rest) = c :: rest := by
        simp only [lstripWs, List.dropWhile_cons]
        simp [Bool.not_eq_true] at hc
        simp [hc]
      rw [h1]

/-- Right-stripping the line does not change the stripped fields of the
comma-split. -/
theorem splitSep_rstrip (l : List Char) :
    (splitSep ',' (rstripWs l)).map pyStrip = (splitSep ',' l).map pyStrip := by
  induction l using List.reverseRecOn with
  | nil => rfl
  | append_singleton x c ih =>
    by_cases hc : isPySpace c
    · rw [rstripWs_snoc_ws c x hc, ih]
      obtain ⟨i, la, hi⟩ := splitSep_concat ',' x
      rw [splitSep_snoc ',' c (isPySpace_ne_comma c hc) x i la hi, hi]
      simp [pyStrip_snoc_ws c la hc]
    · rw [rstripWs_snoc_not_ws c x (by simpa using hc)]

/-- Stripping the whole line does not change the stripped fields of the
comma-split: the code splits the stripped line, while the claims speak of
the fields of the raw line. -/
theorem splitSep_pyStrip (l : List Char) :
    (splitSep ',' (pyStrip l)).map pyStrip = (splitSep ',' l).map pyStrip := by
  have h : pyStrip l = rstripWs (lstripWs l) := rfl
  rw [h, splitSep_rstrip (lstripWs l), splitSep_lstrip l]

/-- A string of whitespace characters strips to the empty string. -/
theorem pyStrip_all_ws (l : List Char) (h : ∀ c ∈ l, isPySpace c = true) :
    pyStrip l = [] := by
  have h1 : lstripWs l = [] := by
    unfold lstripWs
    rw [List.dropWhile_eq_nil_iff]
    exact h
  show rstripWs (lstripWs l) = []
  rw [h1]
  rfl

/-- The comma-split of the stripped line has the same fields as the raw
line up to per-field stripping. -/
theorem fields_strip (l p0 p1 p2 p3 : List Char)
    (h : splitSep ',' l = [p0, p1, p2, p3]) :
    ∃ q0 q1 q2 q3, splitSep ',' (pyStrip l) = [q0, q1, q2, q3] ∧
      pyStrip q0 = pyStrip p0 ∧ pyStrip q1 = pyStrip p1 ∧
      pyStrip q2 = pyStrip p2 ∧ pyStrip q3 = pyStrip p3 := by
  have hm := splitSep_pyStrip l
  rw [h] at hm
  rcases hq : splitSep ',' (pyStrip l) with _ | ⟨q0, _ | ⟨q1, _ | ⟨q2, _ | ⟨q3, _ | ⟨q4, t⟩⟩⟩⟩⟩ <;>
    rw [hq] at hm <;> simp at hm
  obtain ⟨e0, e1, e2, e3⟩ := hm
  exact ⟨q0, q1, q2, q3, rfl, e0, e1, e2, e3⟩

/-- If the raw line splits into exactly 4 fields, the parser's stripped
line is nonempty. -/
theorem pyStrip_ne_nil_of_fields (l p0 p1 p2 p3 : List Char)
    (h : splitSep ',' (pyStrip l) = [p0, p1, p2, p3]) : pyStrip l ≠ [] := by
  intro hz
  rw [hz] at h
  simp [splitSep] at h

/-- Successful-parse characterization: with 4 raw fields whose first two
stripped fields convert under float(), the parser returns exactly the
reading built from those fields. -/
theorem parse_some_of_fields (l p0 p1 p2 p3 : List Char) (a b : PyFloat)
    (h : splitSep ',' l = [p0, p1, p2, p3])
    (h0 : pyFloat? (pyStrip p0) = some a) (h1 : pyFloat? (pyStrip p1) = some b) :
    parse_serial_line l =
      some { rri := a, bsi := b,
             road_condition := pyUpper (pyStrip p2),
             battery_status := pyUpper (pyStrip p3) } := by
  obtain ⟨q0, q1, q2, q3, hq, e0, e1, e2, e3⟩ := fields_strip l p0 p1 p2 p3 h
  have hne := pyStrip_ne_nil_of_fields l q0 q1 q2 q3 hq
  simp only [parse_serial_line]
  rw [if_neg hne, hq]
  simp only [List.getD_cons_zero, List.getD_cons_succ, List.length_cons,
    List.length_nil, e0, e1, e2, e3, h0, h1]
  simp

/-- Failed-parse characterization: if float() rejects the first stripped
field, the parser returns None. -/
theorem parse_none_of_float0 (l p0 p1 p2 p3 : List Char)
    (h : splitSep ',' l = [p0, p1, p2, p3])
    (h0 : pyFloat? (pyStrip p0) = none) :
    parse_serial_line l = none := by
  obtain ⟨q0, q1, q2, q3, hq, e0, e1, e2, e3⟩ := fields_strip l p0 p1 p2 p3 h
  have hne := pyStrip_ne_nil_of_fields l q0 q1 q2 q3 hq
  simp only [parse_serial_line]
  rw [if_neg hne, hq]
  simp only [List.getD_cons_zero, List.getD_cons_succ, List.length_cons,
    List.length_nil, e0, e1, h0]
  simp

/-- Failed-parse characterization: if float() rejects the second stripped
field, the parser returns None. -/
theorem parse_none_of_float1 (l p0 p1 p2 p3 : List Char)
    (h : splitSep ',' l = [p0, p1, p2, p3])
    (h1 : pyFloat? (pyStrip p1) = none) :
    parse_serial_line l = none := by
  obtain ⟨q0, q1, q2, q3, hq, e0, e1, e2, e3⟩ := fields_strip l p0 p1 p2 p3 h
  have hne := pyStrip_ne_nil_of_fields l q0 q1 q2 q3 hq
  simp only [parse_serial_line]
  rw [if_neg hne, hq]
  simp only [List.getD_cons_zero, List.getD_cons_succ, List.length_cons,
    List.length_nil, e0, e1, h1]
  cases pyFloat? (pyStrip p0) <;> simp

/-- Failed-parse characterization: a line whose comma-split does not have
exactly 4 fields parses to None. -/
theorem parse_none_of_len (l : List Char)
    (h : (splitSep ',' l).length ≠ 4) : parse_serial_line l = none := by
  have hlen : (splitSep ',' (pyStrip l)).length = (splitSep ',' l).length := by
    have hm := splitSep_pyStrip l
    have := congrArg List.length hm
    simpa using this
  by_cases hz : pyStrip l = []
  · simp only [parse_serial_line]
    rw [if_pos hz]
  · simp only [parse_serial_line]
    rw [if_neg hz, if_pos (by rw [hlen]; exact h)]

/-- Blank or whitespace-only input parses to None. -/
theorem parse_none_of_blank (l : List Char) (h : ∀ c ∈ l, isPySpace c = true) :
    parse_serial_line l = none := by
  simp only [parse_serial_line]
  rw [if_pos (pyStrip_all_ws l h)]

/-! ## Retention buffer lemmas -/

/-- One push is an append followed by dropping exactly the front element
when the capacity is exceeded. -/
theorem pushBuffer_eq (buf : List StampedReading) (r : StampedReading) :
    pushBuffer buf r =
      if BUFFER_SIZE < buf.length + 1 then (buf ++ [r]).drop 1 else buf ++ [r] := by
  simp [pushBuffer]

/-- Folding pushes over the empty buffer keeps exactly the last
BUFFER_SIZE elements, in order. -/
theorem foldl_pushBuffer (rs : List StampedReading) :
    rs.foldl pushBuffer [] = rs.drop (rs.length - BUFFER_SIZE) := by
  induction rs using List.reverseRecOn with
  | nil => rfl
  | append_singleton rs r ih =>
    rw [List.foldl_append, List.foldl_cons, List.foldl_nil, ih]
    by_cases hlen : rs.length ≤ 99
    · have e : rs.length - BUFFER_SIZE = 0 := by simp only [BUFFER_SIZE]; omega
      have e2 : (rs ++ [r]).length - BUFFER_SIZE = 0 := by
        simp only [BUFFER_SIZE, List.length_append, List.length_cons, List.length_nil]
        omega
      rw [e, List.drop_zero, e2, List.drop_zero]
      simp only [pushBuffer]
      rw [if_neg (by simp only [BUFFER_SIZE, List.length_append, List.length_cons,
        List.length_nil]; omega)]
    · have hdl : (rs.drop (rs.length - BUFFER_SIZE)).length = 100 := by
        rw [List.length_drop]
        simp only [BUFFER_SIZE]
        omega
      simp only [pushBuffer]
      rw [if_pos (by rw [List.length_append, hdl]; simp [BUFFER_SIZE])]
      rw [List.drop_append_of_le_length (by rw [hdl]; omega)]
      rw [List.drop_drop]
      rw [List.drop_append_of_le_length (by simp only [List.length_append,
        List.length_cons, List.length_nil, BUFFER_SIZE]; omega)]
      congr 2
      simp only [BUFFER_SIZE, List.length_append, List.length_cons, List.length_nil]
      omega

/-- The buffer component of a pipeline run is the fold of pushes of the
stamped readings. -/
theorem runPipeline_buffer (fmt : PyFloat → List Char) (evs : List (Bool × List Char × Reading)) :
    ∀ st : SysState, (runPipeline fmt st evs).buffer =
      (evs.map (fun e => stampReading e.2.1 e.2.2)).foldl pushBuffer st.buffer := by
  induction evs with
  | nil => intro st; rfl
  | cons e t ih =>
    intro st
    show (runPipeline fmt (process_and_store fmt e.1 e.2.1 st e.2.2) t).buffer = _
    rw [ih]
    rfl

/-! ## Durable log lemmas -/

theorem append_csv_some (fmt : PyFloat → List Char) (x : List Char) (r : StampedReading) :
    append_to_csv fmt true (some x) r = some (x ++ renderRow fmt r) := rfl

/-- Folding successful appends onto existing content concatenates the
rendered rows. -/
theorem foldl_append_csv (fmt : PyFloat → List Char) (rs : List StampedReading) :
    ∀ x : List Char,
      rs.foldl (fun c r => append_to_csv fmt true c r) (some x) =
        some (x ++ rowsText fmt rs) := by
  induction rs with
  | nil => intro x; simp [rowsText]
  | cons r t ih =>
    intro x
    simp only [List.foldl_cons]
    rw [append_csv_some, ih]
    simp [rowsText, List.append_assoc]

/-- Splitting the concatenated rows on the newline terminator recovers the
row bodies, plus the empty chunk after the final newline. -/
theorem splitSep_rowsText (fmt : PyFloat → List Char) (rs : List StampedReading)
    (hb : ∀ r ∈ rs, ∀ a ∈ rowBody fmt r, a ≠ '\n') :
    splitSep '\n' (rowsText fmt rs) = rs.map (rowBody fmt) ++ [[]] := by
  induction rs with
  | nil => rfl
  | cons r t ih =>
    have h1 := ih (fun r2 h2 => hb r2 (by simp [h2]))
    have h2 : rowsText fmt (r :: t) = rowBody fmt r ++ ('\n' :: rowsText fmt t) := by
      simp [rowsText, renderRow, List.append_assoc]
    rw [h2]
    have hcons : splitSep '\n' ('\n' :: rowsText fmt t) = [] :: splitSep '\n' (rowsText fmt t) :=
      splitSep_cons_eq '\n' '\n' _ rfl
    rw [splitSep_append_cons '\n' ('\n' :: rowsText fmt t) [] (splitSep '\n' (rowsText fmt t))
      hcons (rowBody fmt r) (hb r (by simp))]
    rw [h1]
    simp

/-- Splitting a rendered row body on the delimiter recovers the five
fields, provided none of them contains the delimiter. -/
theorem splitSep_rowBody (fmt : PyFloat → List Char) (r : StampedReading)
    (hts : ∀ a ∈ r.timestamp, a ≠ ',') (h1 : ∀ a ∈ fmt r.rri, a ≠ ',')
    (h2 : ∀ a ∈ fmt r.bsi, a ≠ ',') (h3 : ∀ a ∈ r.road_condition, a ≠ ',')
    (h4 : ∀ a ∈ r.battery_status, a ≠ ',') :
    splitSep ',' (rowBody fmt r) =
      [r.timestamp, fmt r.rri, fmt r.bsi, r.road_condition, r.battery_status] := by
  have s4 : splitSep ',' r.battery_status = [r.battery_status] :=
    splitSep_no_sep ',' r.battery_status h4
  have s3 : splitSep ',' (r.road_condition ++ ',' :: r.battery_status) =
      [r.road_condition, r.battery_status] := by
    rw [splitSep_append_cons ',' (',' :: r.battery_status) [] [r.battery_status]
      (by rw [splitSep_cons_eq ',' ',' _ rfl, s4]) r.road_condition h3]
    simp
  have s2 : splitSep ',' (fmt r.bsi ++ ',' :: (r.road_condition ++ ',' :: r.battery_status)) =
      [fmt r.bsi, r.road_condition, r.battery_status] := by
    rw [splitSep_append_cons ',' (',' :: (r.road_condition ++ ',' :: r.battery_status)) []
      [r.road_condition, r.battery_status]
      (by rw [splitSep_cons_eq ',' ',' _ rfl, s3]) (fmt r.bsi) h2]
    simp
  have s1 : splitSep ','
      (fmt r.rri ++ ',' :: (fmt r.bsi ++ ',' :: (r.road_condition ++ ',' :: r.battery_status))) =
      [fmt r.rri, fmt r.bsi, r.road_condition, r.battery_status] := by
    rw [splitSep_append_cons ','
      (',' :: (fmt r.bsi ++ ',' :: (r.road_condition ++ ',' :: r.battery_status))) []
      [fmt r.bsi, r.road_condition, r.battery_status]
      (by rw [splitSep_cons_eq ',' ',' _ rfl, s2]) (fmt r.rri) h1]
    simp
  show splitSep ',' (r.timestamp ++ ',' :: _) = _
  rw [splitSep_append_cons ','
    (',' :: (fmt r.rri ++ ',' :: (fmt r.bsi ++ ',' :: (r.road_condition ++ ',' :: r.battery_status)))) []
    [fmt r.rri, fmt r.bsi, r.road_condition, r.battery_status]
    (by rw [splitSep_cons_eq ',' ',' _ rfl, s1]) r.timestamp hts]
  simp

/-! ## Rounding lemmas for the mock generator -/

theorem roundHalfEven_ge (m : ℤ) (q : ℚ) (h : (m : ℚ) ≤ q) : m ≤ roundHalfEven q := by
  have h1 : m ≤ ⌊q⌋ := Int.le_floor.mpr h
  unfold roundHalfEven
  split_ifs <;> omega

theorem roundHalfEven_le (m : ℤ) (q : ℚ) (h : q ≤ (m : ℚ)) : roundHalfEven q ≤ m := by
  have h1 : ⌊q⌋ ≤ m := by
    have := Int.floor_le_floor h
    simpa using this
  by_cases heq : ⌊q⌋ = m
  · have hmq : (m : ℚ) ≤ q := by
      have := Int.floor_le q
      rw [heq] at this
      exact this
    have hq : q = (m : ℚ) := le_antisymm h hmq
    unfold roundHalfEven
    rw [hq]
    rw [if_pos (by simp)]
    simp
  · have h2 : ⌊q⌋ + 1 ≤ m := by omega
    unfold roundHalfEven
    split_ifs <;> omega

theorem pyRound_le (q : ℚ) (n : ℕ) (m : ℤ) (h : q * 10 ^ n ≤ (m : ℚ)) :
    pyRound q n ≤ (m : ℚ) / 10 ^ n := by
  unfold pyRound
  have h1 := roundHalfEven_le m (q * 10 ^ n) h
  have hpos : (0 : ℚ) < 10 ^ n := by positivity
  rw [div_le_div_iff₀ hpos hpos]
  have : ((roundHalfEven (q * 10 ^ n) : ℤ) : ℚ) ≤ (m : ℚ) := by exact_mod_cast h1
  nlinarith

theorem pyRound_ge (q : ℚ) (n : ℕ) (m : ℤ) (h : (m : ℚ) ≤ q * 10 ^ n) :
    (m : ℚ) / 10 ^ n ≤ pyRound q n := by
  unfold pyRound
  have h1 := roundHalfEven_ge m (q * 10 ^ n) h
  have hpos : (0 : ℚ) < 10 ^ n := by positivity
  rw [div_le_div_iff₀ hpos hpos]
  have : (m : ℚ) ≤ ((roundHalfEven (q * 10 ^ n) : ℤ) : ℚ) := by exact_mod_cast h1
  nlinarith

/-! ## Interleaving lemmas for the shared buffer -/

/-- A snapshot action does not change the shared state: the reader only
copies the buffer. -/
theorem stepA_snap (st : TraceState) : stepA st .snap = st := rfl

/-- Invariant induction over well-formed interleavings: every observation
taken by a concurrent reader is a suffix of the readings pushed so far and
holds at most 101 entries (BUFFER_SIZE + 1: the append of a push into a
full buffer may have happened while its eviction has not yet run). -/
theorem wf_obs_inv :
    ∀ (tr : List BufAction) (ph : Bool) (st : TraceState),
      wfTrace ph tr = true →
      (∃ k, k ≤ st.history.length ∧ st.buffer = st.history.drop k) →
      st.buffer.length ≤ (if ph then 101 else 100) →
      ∀ p ∈ obsOf st tr,
        p.2.length ≤ 101 ∧ ∃ k, k ≤ p.1.length ∧ p.2 = p.1.drop k := by
  intro tr
  induction tr with
  | nil =>
    intro ph st _ _ _ p hp
    simp [obsOf] at hp
  | cons a t ih =>
    intro ph st hwf hk hlen p hp
    cases a with
    | snap =>
      simp only [obsOf] at hp
      rcases List.mem_cons.mp hp with hEq | hmem
      · subst hEq
        constructor
        · show st.buffer.length ≤ 101
          cases ph <;> simp at hlen <;> omega
        · exact hk
      · exact ih ph st (by simpa [wfTrace] using hwf) hk hlen p hmem
    | append r =>
      cases ph with
      | true => simp [wfTrace] at hwf
      | false =>
        have hwf' : wfTrace true t = true := by simpa [wfTrace] using hwf
        simp only [obsOf] at hp
        refine ih true (stepA st (.append r)) hwf' ?_ ?_ p hp
        · obtain ⟨k, hk1, hk2⟩ := hk
          refine ⟨k, ?_, ?_⟩
          · show k ≤ (st.history ++ [r]).length
            simp only [List.length_append, List.length_cons, List.length_nil]
            omega
          · show st.buffer ++ [r] = (st.history ++ [r]).drop k
            rw [hk2, List.drop_append_of_le_length hk1]
        · show (st.buffer ++ [r]).length ≤ 101
          simp only [List.length_append, List.length_cons, List.length_nil]
          simp at hlen
          omega
    | evict =>
      cases ph with
      | false => simp [wfTrace] at hwf
      | true =>
        have hwf' : wfTrace false t = true := by simpa [wfTrace] using hwf
        simp only [obsOf] at hp
        refine ih false (stepA st .evict) hwf' ?_ ?_ p hp
        · obtain ⟨k, hk1, hk2⟩ := hk
          simp only [stepA]
          by_cases hb : BUFFER_SIZE < st.buffer.length
          · rw [if_pos hb]
            have hlb : st.buffer.length = st.history.length - k := by
              rw [hk2, List.length_drop]
            refine ⟨k + 1, ?_, ?_⟩
            · show k + 1 ≤ st.history.length
              simp only [BUFFER_SIZE] at hb
              omega
            · show st.buffer.drop 1 = st.history.drop (k + 1)
              rw [hk2, List.drop_drop]
          · rw [if_neg hb]
            exact ⟨k, hk1, hk2⟩
        · simp only [stepA]
          by_cases hb : BUFFER_SIZE < st.buffer.length
          · rw [if_pos hb]
            show (st.buffer.drop 1).length ≤ 100
            simp only [List.length_drop]
            simp at hlen
            omega
          · rw [if_neg hb]
            show st.buffer.length ≤ 100
            simp only [BUFFER_SIZE] at hb
            omega

theorem obsOf_append (tr2 : List BufAction) :
    ∀ (tr1 : List BufAction) (st : TraceState),
      obsOf st (tr1 ++ tr2) = obsOf st tr1 ++ obsOf (execTrace st tr1) tr2 := by
  intro tr1
  induction tr1 with
  | nil => intro st; rfl
  | cons a t ih =>
    intro st
    cases a with
    | append r =>
      show obsOf (stepA st (.append r)) (t ++ tr2) = _
      rw [ih]
      rfl
    | evict =>
      show obsOf (stepA st .evict) (t ++ tr2) = _
      rw [ih]
      rfl
    | snap =>
      show (st.history, st.buffer) :: obsOf st (t ++ tr2) = _
      rw [ih]
      rfl

/-- Executing the producer actions of a sequence of complete pushes. -/
theorem execTrace_pushActs (rs : List StampedReading) :
    ∀ st : TraceState,
      execTrace st (pushActs rs) =
        { history := st.history ++ rs, buffer := rs.foldl pushBuffer st.buffer } := by
  induction rs with
  | nil => intro st; simp [execTrace, pushActs]
  | cons r t ih =>
    intro st
    show execTrace (stepA (stepA st (.append r)) .evict) (pushActs t) = _
    have h2 : stepA (stepA st (.append r)) .evict =
        { history := st.history ++ [r], buffer := pushBuffer st.buffer r } := by
      simp only [stepA, pushBuffer]
      split <;> rfl
    rw [h2, ih]
    simp

/-- Complete pushes produce no observations. -/
theorem obsOf_pushActs (rs : List StampedReading) :
    ∀ st : TraceState, obsOf st (pushActs rs) = [] := by
  induction rs with
  | nil => intro st; rfl
  | cons r t ih =>
    intro st
    show obsOf (stepA (stepA st (.append r)) .evict) (pushActs t) = []
    exact ih _

/-- Complete pushes preserve well-formedness of the remaining trace. -/
theorem wfTrace_pushActs (rs : List StampedReading) :
    ∀ l : List BufAction, wfTrace false (pushActs rs ++ l) = wfTrace false l := by
  induction rs with
  | nil => intro l; rfl
  | cons r t ih =>
    intro l
    show wfTrace false (.append r :: .evict :: (pushActs t ++ l)) = _
    simp only [wfTrace]
    exact ih l

/-! ## Claim theorems -/

/-- Claim C1: for any sequence of N pushes into an initially empty retention
buffer of capacity 100 performed by process_and_store, the final buffer
length is min(N, 100) and the final contents are the last min(N, 100)
stamped readings in push order; each individual push appends to the end
and, when the resulting length exceeds the capacity, removes exactly one
element from the front. -/
theorem c1_retention_buffer (fmt : PyFloat → List Char) (c0 : Option (List Char))
    (evs : List (Bool × List Char × Reading)) :
    (runPipeline fmt ⟨c0, []⟩ evs).buffer.length = min evs.length BUFFER_SIZE ∧
    (runPipeline fmt ⟨c0, []⟩ evs).buffer =
      (evs.map (fun e => stampReading e.2.1 e.2.2)).drop (evs.length - BUFFER_SIZE) ∧
    ∀ (buf : List StampedReading) (r : StampedReading),
      pushBuffer buf r =
        if BUFFER_SIZE < buf.length + 1 then (buf ++ [r]).drop 1 else buf ++ [r] := by
  have hb := runPipeline_buffer fmt evs ⟨c0, []⟩
  have hf := foldl_pushBuffer (evs.map (fun e => stampReading e.2.1 e.2.2))
  rw [List.length_map] at hf
  refine ⟨?_, ?_, pushBuffer_eq⟩
  · rw [hb, hf, List.length_drop, List.length_map]
    simp only [BUFFER_SIZE]
    omega
  · rw [hb, hf]

/-- Claim C2: the parser is total (returns a reading or None, never an
unhandled exception), and returns None on blank or whitespace-only input,
on input that does not split on the comma into exactly 4 fields, and on
4-field input whose first or second stripped field is rejected by
float(). -/
theorem c2_parser_rejection (l : List Char) :
    (parse_serial_line l = none ∨ ∃ r, parse_serial_line l = some r) ∧
    ((∀ c ∈ l, isPySpace c = true) → parse_serial_line l = none) ∧
    ((splitSep ',' l).length ≠ 4 → parse_serial_line l = none) ∧
    (∀ p0 p1 p2 p3, splitSep ',' l = [p0, p1, p2, p3] →
      (pyFloat? (pyStrip p0) = none ∨ pyFloat? (pyStrip p1) = none) →
      parse_serial_line l = none) := by
  refine ⟨?_, parse_none_of_blank l, parse_none_of_len l, ?_⟩
  · cases h : parse_serial_line l
    · exact Or.inl rfl
    · exact Or.inr ⟨_, rfl⟩
  · intro p0 p1 p2 p3 h hf
    rcases hf with h0 | h1
    · exact parse_none_of_float0 l p0 p1 p2 p3 h h0
    · exact parse_none_of_float1 l p0 p1 p2 p3 h h1

/-- Witness for C2 at concrete rejected inputs: a whitespace-only line, a
2-field line, and a 4-field line with a non-numeric first field. -/
theorem c2_witness :
    parse_serial_line ("   ".toList) = none ∧
    parse_serial_line ("bad,data".toList) = none ∧
    parse_serial_line ("x,1,a,b".toList) = none := by
  refine ⟨(c2_parser_rejection _).2.1 (by decide),
    (c2_parser_rejection _).2.2.1 (by decide),
    (c2_parser_rejection _).2.2.2 "x".toList "1".toList "a".toList "b".toList
      (by decide) (Or.inl (by decide))⟩

/-- Claim C3: every line splitting into exactly 4 comma-separated fields
whose first two trimmed fields convert under float() parses to a reading
carrying those two numeric values and the trimmed, upper-cased third and
fourth fields verbatim (no validation against any fixed token set). -/
theorem c3_parser_acceptance (l p0 p1 p2 p3 : List Char) (a b : PyFloat)
    (h : splitSep ',' l = [p0, p1, p2, p3])
    (h0 : pyFloat? (pyStrip p0) = some a) (h1 : pyFloat? (pyStrip p1) = some b) :
    parse_serial_line l =
      some { rri := a, bsi := b,
             road_condition := pyUpper (pyStrip p2),
             battery_status := pyUpper (pyStrip p3) } :=
  parse_some_of_fields l p0 p1 p2 p3 a b h h0 h1

/-- Witness for C3 on the spec's end-to-end scenario line. -/
theorem c3_witness :
    parse_serial_line ("0.5,15.2,smooth,normal".toList) =
      some { rri := .finite (1 / 2), bsi := .finite (76 / 5),
             road_condition := "SMOOTH".toList, battery_status := "NORMAL".toList } := by
  have hf0 : floatTok? (pyStrip ("0.5".toList)) = some (.num false 0 5 1 false 0) := by decide
  have hf1 : floatTok? (pyStrip ("15.2".toList)) = some (.num false 15 2 1 false 0) := by decide
  have h0 : pyFloat? (pyStrip ("0.5".toList)) = some (.finite (1 / 2)) := by
    rw [pyFloat?, hf0]
    simp [FloatTok.toPyFloat]
    norm_num
  have h1 : pyFloat? (pyStrip ("15.2".toList)) = some (.finite (76 / 5)) := by
    rw [pyFloat?, hf1]
    simp [FloatTok.toPyFloat]
    norm_num
  have h := c3_parser_acceptance ("0.5,15.2,smooth,normal".toList)
    "0.5".toList "15.2".toList "smooth".toList "normal".toList
    (.finite (1 / 2)) (.finite (76 / 5)) (by decide) h0 h1
  rw [h]
  have e2 : pyUpper (pyStrip ("smooth".toList)) = "SMOOTH".toList := by decide
  have e3 : pyUpper (pyStrip ("normal".toList)) = "NORMAL".toList := by decide
  rw [e2, e3]

/-- Claim C4: a failed durable append is absorbed: the in-memory buffer
after a failed append equals the buffer after a successful append, the
reading is still pushed, and the failed append leaves the file as it
was. -/
theorem c4_persistence_failure (fmt : PyFloat → List Char) (st : SysState)
    (ts : List Char) (d : Reading) :
    (process_and_store fmt false ts st d).buffer =
      (process_and_store fmt true ts st d).buffer ∧
    (process_and_store fmt false ts st d).buffer =
      pushBuffer st.buffer (stampReading ts d) ∧
    (process_and_store fmt false ts st d).csv = st.csv :=
  ⟨rfl, rfl, rfl⟩

/-- Claim C5: the mock-mode flag is latched by the acquisition loop: once
it is true, no sequence of further loop iterations can make it false, so
every subsequent api_status / api_data call observes mock_mode = true. -/
theorem c5_mock_mode_latch (fmt : PyFloat → List Char) (s : ListenerState)
    (evs : List TickEnv) (h : s.mock = true) :
    (runListener fmt s evs).mock = true ∧
    (api_status (runListener fmt s evs)).mock_mode = true ∧
    (api_data (runListener fmt s evs)).2 = true := by
  have key : ∀ (evs : List TickEnv) (s : ListenerState), s.mock = true →
      (runListener fmt s evs).mock = true := by
    intro evs
    induction evs with
    | nil => intro s h; exact h
    | cons e t ih =>
      intro s h
      show (runListener fmt (listenerTick fmt s e) t).mock = true
      apply ih
      unfold listenerTick
      by_cases hso : s.serOpen
      · rw [if_pos hso]
        cases hhw : e.hw with
        | dataLine raw =>
          cases hpr : parse_serial_line raw <;> simp only [hpr] <;> simpa using h
        | noData => simpa using h
        | serialFail => rfl
        | otherFail => simpa using h
      · rw [if_neg hso]
        simpa using h
  exact ⟨key evs s h, key evs s h, key evs s h⟩

/-- Witness for C5: a concrete mock-mode state stays in mock mode across a
concrete loop iteration and is reported as such by the status route. -/
theorem c5_witness :
    (runListener (fun _ => []) { serOpen := false, mock := true, sys := ⟨none, []⟩ }
      [{ hw := .noData, mockReading := sampleReading, ts := [], writeOk := false }]).mock
        = true ∧
    (api_status (runListener (fun _ => [])
      { serOpen := false, mock := true, sys := ⟨none, []⟩ }
      [{ hw := .noData, mockReading := sampleReading, ts := [], writeOk := false }])).mock_mode
        = true := by
  have h := c5_mock_mode_latch (fun _ => [])
    { serOpen := false, mock := true, sys := ⟨none, []⟩ }
    [{ hw := .noData, mockReading := sampleReading, ts := [], writeOk := false }] rfl
  exact ⟨h.1, h.2.1⟩

/-- Counterexample to C6 as stated: the fields "inf" and "nan" are not
finite decimal numbers, yet the parser accepts the line and returns a
reading whose rri is the infinity value and whose bsi is NaN, because
Python's float() accepts "inf"/"infinity"/"nan" in any case. -/
theorem c6_counterexample :
    parse_serial_line ("inf,nan,a,b".toList) =
      some { rri := PyFloat.inf, bsi := PyFloat.nan,
             road_condition := "A".toList, battery_status := "B".toList } := by
  decide

/-- Claim C6 as amended: the parser returns a reading exactly when the
line has 4 comma-separated fields whose first two trimmed fields are
accepted by Python float() — finite or not; finiteness is not checked, so
"inf"/"infinity"/"nan" spellings yield readings with non-finite values. -/
theorem c6_amended (l : List Char) :
    (∃ r, parse_serial_line l = some r) ↔
      ∃ p0 p1 p2 p3, splitSep ',' l = [p0, p1, p2, p3] ∧
        (pyFloat? (pyStrip p0)).isSome = true ∧ (pyFloat? (pyStrip p1)).isSome = true := by
  constructor
  · rintro ⟨r, hr⟩
    by_cases hlen : (splitSep ',' l).length = 4
    · obtain ⟨p0, p1, p2, p3, hp⟩ : ∃ p0 p1 p2 p3, splitSep ',' l = [p0, p1, p2, p3] := by
        rcases hq : splitSep ',' l with _ | ⟨a0, _ | ⟨a1, _ | ⟨a2, _ | ⟨a3, _ | ⟨a4, t⟩⟩⟩⟩⟩ <;>
          rw [hq] at hlen <;> simp at hlen
        exact ⟨a0, a1, a2, a3, rfl⟩
      refine ⟨p0, p1, p2, p3, hp, ?_, ?_⟩
      · cases h0 : pyFloat? (pyStrip p0)
        · rw [parse_none_of_float0 l p0 p1 p2 p3 hp h0] at hr
          simp at hr
        · rfl
      · cases h1 : pyFloat? (pyStrip p1)
        · rw [parse_none_of_float1 l p0 p1 p2 p3 hp h1] at hr
          simp at hr
        · rfl
    · rw [parse_none_of_len l hlen] at hr
      simp at hr
  · rintro ⟨p0, p1, p2, p3, hp, h0, h1⟩
    rw [Option.isSome_iff_exists] at h0 h1
    obtain ⟨a, ha⟩ := h0
    obtain ⟨b, hb⟩ := h1
    exact ⟨_, parse_some_of_fields l p0 p1 p2 p3 a b hp ha hb⟩

/-- Claim C7: for every state of the random number generator, the mock
generator produces a reading with 0.20 <= rri <= 0.80, 8.0 <= bsi <= 25.0,
a road condition in {SMOOTH, MODERATE, ROUGH} and a battery status in
{NORMAL, ELEVATED, CRITICAL}. -/
theorem c7_generator_ranges (u1 u2 u3 : ℚ) (i : Fin 4)
    (h1a : 0 ≤ u1) (h1b : u1 < 1) (h2a : 0 ≤ u2) (h2b : u2 < 1) :
    ∃ x y : ℚ,
      (generate_mock_data u1 u2 u3 i).rri = .finite x ∧
      (generate_mock_data u1 u2 u3 i).bsi = .finite y ∧
      1 / 5 ≤ x ∧ x ≤ 4 / 5 ∧ 8 ≤ y ∧ y ≤ 25 ∧
      (generate_mock_data u1 u2 u3 i).road_condition ∈
        ["SMOOTH".toList, "MODERATE".toList, "ROUGH".toList] ∧
      (generate_mock_data u1 u2 u3 i).battery_status ∈
        ["NORMAL".toList, "ELEVATED".toList, "CRITICAL".toList] := by
  refine ⟨pyRound (uniformQ (1 / 5) (4 / 5) u1) 2, pyRound (uniformQ 8 25 u2) 1,
    rfl, rfl, ?_, ?_, ?_, ?_, ?_, ?_⟩
  · have h := pyRound_ge (uniformQ (1 / 5) (4 / 5) u1) 2 20 (by
      unfold uniformQ
      push_cast
      nlinarith)
    have e : ((20 : ℤ) : ℚ) / 10 ^ 2 = 1 / 5 := by norm_num
    rw [e] at h
    exact h
  · have h := pyRound_le (uniformQ (1 / 5) (4 / 5) u1) 2 80 (by
      unfold uniformQ
      push_cast
      nlinarith)
    have e : ((80 : ℤ) : ℚ) / 10 ^ 2 = 4 / 5 := by norm_num
    rw [e] at h
    exact h
  · have h := pyRound_ge (uniformQ 8 25 u2) 1 80 (by
      unfold uniformQ
      push_cast
      nlinarith)
    have e : ((80 : ℤ) : ℚ) / 10 ^ 1 = 8 := by norm_num
    rw [e] at h
    exact h
  · have h := pyRound_le (uniformQ 8 25 u2) 1 250 (by
      unfold uniformQ
      push_cast
      nlinarith)
    have e : ((250 : ℤ) : ℚ) / 10 ^ 1 = 25 := by norm_num
    rw [e] at h
    exact h
  · show weightedRoad u3 ∈ _
    unfold weightedRoad
    split_ifs <;> simp
  · show batteryChoices.get (Fin.cast (by rfl) i) ∈ _
    fin_cases i <;> decide

/-- Witness for C7 at a concrete generator state. -/
theorem c7_witness :
    ∃ x y : ℚ,
      (generate_mock_data 0 0 0 0).rri = .finite x ∧
      (generate_mock_data 0 0 0 0).bsi = .finite y ∧
      1 / 5 ≤ x ∧ x ≤ 4 / 5 ∧ 8 ≤ y ∧ y ≤ 25 ∧
      (generate_mock_data 0 0 0 0).road_condition ∈
        ["SMOOTH".toList, "MODERATE".toList, "ROUGH".toList] ∧
      (generate_mock_data 0 0 0 0).battery_status ∈
        ["NORMAL".toList, "ELEVATED".toList, "CRITICAL".toList] :=
  c7_generator_ranges 0 0 0 0 (by norm_num) (by norm_num) (by norm_num) (by norm_num)

/-- Claim C8: initialization creates the log with the fixed header only
when the file is absent and leaves an existing file unchanged; after K
successful appends the log is the header line followed by one row per
reading in append order (K+1 newline-terminated lines), and splitting each
row on the delimiter reproduces the original field values (modulo float
formatting), provided no field contains the delimiter or a newline — the
format writes fields unquoted. -/
theorem c8_durable_log (fmt : PyFloat → List Char) (rs : List StampedReading)
    (hclean : ∀ r ∈ rs, ∀ a : Char,
      (a ∈ r.timestamp ∨ a ∈ r.road_condition ∨ a ∈ r.battery_status) →
      a ≠ ',' ∧ a ≠ '\n')
    (hfmt : ∀ q : PyFloat, ∀ a ∈ fmt q, a ≠ ',' ∧ a ≠ '\n') :
    (∀ c : List Char, ensure_data_dir (some c) = some c) ∧
    rs.foldl (fun c2 r => append_to_csv fmt true c2 r) (ensure_data_dir none) =
      some (headerLine ++ '\n' :: rowsText fmt rs) ∧
    splitSep '\n' (headerLine ++ '\n' :: rowsText fmt rs) =
      headerLine :: rs.map (rowBody fmt) ++ [[]] ∧
    (splitSep '\n' (headerLine ++ '\n' :: rowsText fmt rs)).length = rs.length + 2 ∧
    ∀ r ∈ rs, splitSep ',' (rowBody fmt r) =
      [r.timestamp, fmt r.rri, fmt r.bsi, r.road_condition, r.battery_status] := by
  have hrow : ∀ r ∈ rs, ∀ a ∈ rowBody fmt r, a ≠ '\n' := by
    intro r hr a ha
    have hmem : a ∈ r.timestamp ∨ a = ',' ∨ a ∈ fmt r.rri ∨ a ∈ fmt r.bsi ∨
        a ∈ r.road_condition ∨ a ∈ r.battery_status := by
      simp only [rowBody, List.mem_append, List.mem_cons] at ha
      tauto
    rcases hmem with hm | hm | hm | hm | hm | hm
    · exact (hclean r hr a (Or.inl hm)).2
    · subst hm; decide
    · exact (hfmt r.rri a hm).2
    · exact (hfmt r.bsi a hm).2
    · exact (hclean r hr a (Or.inr (Or.inl hm))).2
    · exact (hclean r hr a (Or.inr (Or.inr hm))).2
  have hsplit : splitSep '\n' (headerLine ++ '\n' :: rowsText fmt rs) =
      headerLine :: rs.map (rowBody fmt) ++ [[]] := by
    have hrows := splitSep_rowsText fmt rs hrow
    have hhdr : ∀ a ∈ headerLine, a ≠ '\n' := by decide
    rw [splitSep_append_cons '\n' ('\n' :: rowsText fmt rs) []
      (splitSep '\n' (rowsText fmt rs))
      (splitSep_cons_eq '\n' '\n' _ rfl) headerLine hhdr]
    rw [hrows]
    simp
  refine ⟨fun c => rfl, ?_, hsplit, ?_, ?_⟩
  · show rs.foldl (fun c2 r => append_to_csv fmt true c2 r)
      (some (headerLine ++ ['\n'])) = _
    rw [foldl_append_csv fmt rs (headerLine ++ ['\n'])]
    simp only [List.append_assoc, List.singleton_append]
  · rw [hsplit]
    simp only [List.length_cons, List.length_append, List.length_map,
      List.length_nil]
  · intro r hr
    refine splitSep_rowBody fmt r ?_ ?_ ?_ ?_ ?_
    · exact fun a ha => (hclean r hr a (Or.inl ha)).1
    · exact fun a ha => (hfmt r.rri a ha).1
    · exact fun a ha => (hfmt r.bsi a ha).1
    · exact fun a ha => (hclean r hr a (Or.inr (Or.inl ha))).1
    · exact fun a ha => (hclean r hr a (Or.inr (Or.inr ha))).1

/-- Witness for C8: one successful append after initialization yields a
log that splits into the header, one data row and the empty chunk after
the final newline. -/
theorem c8_witness :
    (splitSep '\n' (headerLine ++ '\n' :: rowsText (fun _ => ['0'])
      [sampleStamped])).length = 3 ∧
    [sampleStamped].foldl (fun c2 r => append_to_csv (fun _ => ['0']) true c2 r)
        (ensure_data_dir none) =
      some (headerLine ++ '\n' :: rowsText (fun _ => ['0']) [sampleStamped]) := by
  have h := c8_durable_log (fun _ => ['0']) [sampleStamped]
    (by intro r hr a ha
        simp only [List.mem_singleton] at hr
        subst hr
        simp [sampleStamped] at ha
        rcases ha with rfl | rfl | rfl <;> decide)
    (by intro q a ha
        simp only [List.mem_singleton] at ha
        subst ha
        decide)
  exact ⟨h.2.2.2.1, h.2.1⟩

/-- Counterexample to C9 as stated: with the buffer full (100 complete
pushes), the producer's append of the 101st entry and its eviction are two
separate atomic statements; a concurrent api_data copy scheduled between
them observes 101 entries, exceeding the capacity bound claimed. The
interleaving is well-formed, and the sole snapshot it produces has length
101 > 100. -/
theorem c9_counterexample :
    wfTrace false (pushActs (List.replicate 100 sampleStamped) ++
      [.append sampleStamped, .snap]) = true ∧
    (obsOf { history := [], buffer := [] }
        (pushActs (List.replicate 100 sampleStamped) ++
          [.append sampleStamped, .snap])).map (fun p => p.2.length) = [101] := by
  constructor
  · rw [wfTrace_pushActs]
    decide
  · rw [obsOf_append, obsOf_pushActs, execTrace_pushActs]
    have hf : (List.replicate 100 sampleStamped).foldl pushBuffer
        ([] : List StampedReading) = List.replicate 100 sampleStamped := by
      rw [foldl_pushBuffer]
      simp [BUFFER_SIZE]
    rw [hf]
    simp only [obsOf, stepA, List.nil_append, List.map_cons, List.map_nil]
    simp [List.length_append, List.length_replicate]

/-- Claim C9 as amended: under any well-formed interleaving of producer
pushes (append then conditional eviction, in that order) with concurrent
snapshot copies, a snapshot never mutates the shared state, and every
snapshot is a contiguous suffix of the readings pushed so far with length
at most BUFFER_SIZE + 1 = 101 (the bound 100 claimed by the spec is
exceeded exactly when the copy lands between the append of a push into a
full buffer and its eviction, as the counterexample shows). -/
theorem c9_amended (tr : List BufAction) (h : wfTrace false tr = true) :
    (∀ st : TraceState, stepA st .snap = st) ∧
    ∀ p ∈ obsOf { history := [], buffer := [] } tr,
      p.2.length ≤ BUFFER_SIZE + 1 ∧ ∃ k, k ≤ p.1.length ∧ p.2 = p.1.drop k := by
  refine ⟨stepA_snap, ?_⟩
  intro p hp
  have h2 := wf_obs_inv tr false { history := [], buffer := [] } h
    ⟨0, by simp, by simp⟩ (by simp) p hp
  simpa [BUFFER_SIZE] using h2

/-- Witness for C9 (amended) on a concrete well-formed trace: one complete
push followed by a snapshot. -/
theorem c9_witness :
    ([sampleStamped], [sampleStamped]).2.length ≤ BUFFER_SIZE + 1 ∧
    ∃ k, k ≤ ([sampleStamped], [sampleStamped]).1.length ∧
      ([sampleStamped], [sampleStamped]).2 = ([sampleStamped], [sampleStamped]).1.drop k := by
  have h := c9_amended [.append sampleStamped, .evict, .snap] (by decide)
  refine h.2 ([sampleStamped], [sampleStamped]) ?_
  show ([sampleStamped], [sampleStamped]) ∈
    obsOf { history := [], buffer := [] } [.append sampleStamped, .evict, .snap]
  simp [obsOf, stepA, BUFFER_SIZE]

/-- Claim C10: in a 4-field line whose first two trimmed fields convert
under float(), an empty or whitespace-only third or fourth field is
accepted and passed through as the empty string; only the first two fields
are ever a cause of rejection in such a line. -/
theorem c10_empty_categories (l p0 p1 p2 p3 : List Char) (a b : PyFloat)
    (h : splitSep ',' l = [p0, p1, p2, p3])
    (h0 : pyFloat? (pyStrip p0) = some a) (h1 : pyFloat? (pyStrip p1) = some b) :
    ((∀ c ∈ p2, isPySpace c = true) → (∀ c ∈ p3, isPySpace c = true) →
      parse_serial_line l =
        some { rri := a, bsi := b, road_condition := [], battery_status := [] }) ∧
    ∃ r, parse_serial_line l = some r := by
  constructor
  · intro hw2 hw3
    have hs := parse_some_of_fields l p0 p1 p2 p3 a b h h0 h1
    rw [pyStrip_all_ws p2 hw2, pyStrip_all_ws p3 hw3] at hs
    exact hs
  · exact ⟨_, parse_some_of_fields l p0 p1 p2 p3 a b h h0 h1⟩

/-- Witness for C10 on the line "1,2,," from the claim. -/
theorem c10_witness :
    parse_serial_line ("1,2,,".toList) =
      some { rri := .finite 1, bsi := .finite 2,
             road_condition := [], battery_status := [] } := by
  have hf0 : floatTok? (pyStrip ("1".toList)) = some (.num false 1 0 0 false 0) := by decide
  have hf1 : floatTok? (pyStrip ("2".toList)) = some (.num false 2 0 0 false 0) := by decide
  have h0 : pyFloat? (pyStrip ("1".toList)) = some (.finite 1) := by
    rw [pyFloat?, hf0]
    simp [FloatTok.toPyFloat]
  have h1 : pyFloat? (pyStrip ("2".toList)) = some (.finite 2) := by
    rw [pyFloat?, hf1]
    simp [FloatTok.toPyFloat]
  exact (c10_empty_categories ("1,2,,".toList) "1".toList "2".toList [] []
    (.finite 1) (.finite 2) (by decide) h0 h1).1 (by decide) (by decide)
